import Mathlib

/-!
Verification of the reqcache request-scoped cache library.

The Go source is shallowly embedded: pointers are modelled by the
inductive type Ptr (arena slots are identified by the identity of the
backing array plus the slot index, standalone allocations by an
allocation counter), Go errors by the inductive type GoError, the
execution context by the inductive type Context, and Go maps keyed by
session id by association lists with the functions mapLookup, mapInsert
and mapRemove.  Mutation is made explicit by threading the state.
The Go zero value of a type T is modelled by the Inhabited default.
-/

namespace Reqcache

/-- Model of a Go pointer to T.  A slot pointer is an address inside the
pre-allocated backing array of an arena (identified by the identity of
that array), a fresh pointer is the address of a standalone allocation
made by the builtin new, an ext pointer is an address produced by the
caller outside the library, and null is the nil pointer. -/
inductive Ptr where
  | null
  | slot (arenaId : Nat) (i : Nat)
  | fresh (n : Nat)
  | ext (n : Nat)
deriving DecidableEq

/-- Model of the error values returned by the library: the two exported
sentinel errors, the three validation errors built in validate, and
caller-supplied callback errors identified by a tag. -/
inductive GoError where
  | noSessionInContext
  | sessionAlreadyExists
  | cacheSizeNotPositive
  | objSizeNotPositive
  | operationNameNotSet
  | user (tag : Nat)
deriving DecidableEq

/-- Model of a context.Context as seen by the library: either the nil
context, or a context whose hidden session slot is empty or carries a
uint64 session id.  Other context values are irrelevant to the code. -/
inductive Context where
  | nilCtx
  | valid (sess : Option Nat)
deriving DecidableEq

/-- InContext reports whether the context carries a session key.
Mirrors: return ctx.Value(contextKey) != nil.  (The Go code would panic
on a nil context here; the model is only used with non-nil contexts.) -/
def InContext : Context → Bool
  | .valid (some _) => true
  | _ => false

/-- fromContext returns the session key from the context, mirroring the
nil check and the uint64 type assertion of the source. -/
def fromContext : Context → Except GoError Nat
  | .nilCtx => .error .noSessionInContext
  | .valid none => .error .noSessionInContext
  | .valid (some v) => .ok v

/-- NewSession mirrors the source: it fails if the context already
carries a session key, otherwise derives a child context carrying
atomic.AddUint64(requestID, 1).  The process-wide uint64 counter is
threaded explicitly and wraps modulo 2 to the 64. -/
def NewSession (ctx : Context) (requestID : Nat) : Except GoError Context × Nat :=
  if InContext ctx then
    (.error .sessionAlreadyExists, requestID)
  else
    let newID := (requestID + 1) % 2 ^ 64
    (.ok (.valid (some newID)), newID)

/-- mintIds collects the session ids produced by n successive NewSession
calls on fresh contexts, starting from the given counter value. -/
def mintIds (ctr : Nat) : Nat → List Nat
  | 0 => []
  | n + 1 =>
    match NewSession (.valid none) ctr with
    | (.ok (.valid (some id)), ctr2) => id :: mintIds ctr2 n
    | (_, ctr2) => mintIds ctr2 n

/-- Lookup in a Go map keyed by session id, modelled as an association
list. -/
def mapLookup {A : Type} : List (Nat × A) → Nat → Option A
  | [], _ => none
  | e :: es, k => if e.1 = k then some e.2 else mapLookup es k

/-- Insert or replace in a Go map keyed by session id. -/
def mapInsert {A : Type} : List (Nat × A) → Nat → A → List (Nat × A)
  | [], k, v => [(k, v)]
  | e :: es, k, v => if e.1 = k then (k, v) :: es else e :: mapInsert es k v

/-- Delete from a Go map keyed by session id. -/
def mapRemove {A : Type} : List (Nat × A) → Nat → List (Nat × A)
  | [], _ => []
  | e :: es, k => if e.1 = k then mapRemove es k else e :: mapRemove es k

/-- Modelled from the spec: the external LRU collaborator
(hashicorp golang-lru), a fixed-capacity key to value-pointer container
with least-recently-used eviction.  Entries are kept most recently used
first.  Only the operations the core uses are modelled: Add, Get,
Contains, Remove, Purge. -/
structure LruCache (K : Type) where
  cap : Nat
  entries : List (K × Ptr)
deriving DecidableEq

/-- Add inserts or overwrites a key, moves it to the front, and evicts
the least recently used entry when the capacity is exceeded. -/
def LruCache.Add {K : Type} [DecidableEq K] (c : LruCache K) (k : K) (v : Ptr) : LruCache K :=
  { c with entries := ((k, v) :: c.entries.filter (fun e => decide (¬ e.1 = k))).take c.cap }

/-- Get returns (value, ok) like the Go collaborator (the zero value,
a nil pointer, when absent) and refreshes the recency of the key. -/
def LruCache.Get {K : Type} [DecidableEq K] (c : LruCache K) (k : K) :
    (Ptr × Bool) × LruCache K :=
  match c.entries.find? (fun e => decide (e.1 = k)) with
  | some e =>
    ((e.2, true),
     { c with entries := (k, e.2) :: c.entries.filter (fun x => decide (¬ x.1 = k)) })
  | none => ((Ptr.null, false), c)

/-- Contains checks for a key without refreshing recency. -/
def LruCache.Contains {K : Type} [DecidableEq K] (c : LruCache K) (k : K) : Bool :=
  c.entries.any (fun e => decide (e.1 = k))

/-- Remove deletes a key, reporting whether it was present. -/
def LruCache.Remove {K : Type} [DecidableEq K] (c : LruCache K) (k : K) :
    Bool × LruCache K :=
  (c.Contains k, { c with entries := c.entries.filter (fun e => decide (¬ e.1 = k)) })

/-- Purge removes every entry. -/
def LruCache.Purge {K : Type} (c : LruCache K) : LruCache K :=
  { c with entries := [] }

/-- cachePool wraps a sync.Pool of LRU caches.  The pool is modelled as
an explicit free list; the New closure of the sync.Pool constructs an
empty LRU of the configured size (validation guarantees the size is
positive, so the collaborator constructor cannot fail). -/
structure cachePool (K : Type) where
  size : Int
  free : List (LruCache K)
deriving DecidableEq

/-- newPoolWrapper creates a cachePool whose New closure captures the
configured cache size. -/
def newPoolWrapper (K : Type) (size : Int) : cachePool K :=
  { size := size, free := [] }

/-- Get returns a cache from the pool, or a freshly constructed empty
one when the pool is empty. -/
def cachePool.Get {K : Type} (w : cachePool K) : LruCache K × cachePool K :=
  match w.free with
  | c :: rest => (c, { w with free := rest })
  | [] => ({ cap := w.size.toNat, entries := [] }, w)

/-- Put purges the cache and returns it to the pool. -/
def cachePool.Put {K : Type} (w : cachePool K) (v : LruCache K) : cachePool K :=
  { w with free := v.Purge :: w.free }

/-- objectPool manages a pre-allocated array of T slots and a cursor.
The arenaId field stands for the identity of the Go backing array and
is used to give slot pointers their addresses; hasLogger stands for
whether the logger reference is non-nil. -/
structure objectPool (T : Type) where
  arenaId : Nat
  data : List T
  index : Nat
  name : String
  hasLogger : Bool
deriving DecidableEq

/-- newObjectPool mirrors the source constructor: a zeroed slot array of
the requested size and a cursor at 0. -/
def newObjectPool (T : Type) [Inhabited T] (name : String) (size : Int)
    (hasLogger : Bool) (arenaId : Nat) : objectPool T :=
  { arenaId := arenaId, data := List.replicate size.toNat default, index := 0,
    name := name, hasLogger := hasLogger }

/-- Result of one objectPool.get call: the returned pointer, the hit
flag reported to the logger, the updated pool, and the updated list of
standalone allocations (the model of the Go heap cells created by new). -/
structure GetResult (T : Type) where
  ptr : Ptr
  hit : Bool
  pool : objectPool T
  freshVals : List T
deriving DecidableEq

/-- get mirrors objectPool.get: if the cursor has reached the end of
the array it allocates a standalone zero value (a miss), otherwise it
returns the address of the slot at the cursor and increments the cursor
(a hit). -/
def objectPool.get {T : Type} [Inhabited T] (p : objectPool T) (freshVals : List T) :
    GetResult T :=
  if p.data.length ≤ p.index then
    { ptr := .fresh freshVals.length, hit := false, pool := p,
      freshVals := freshVals ++ [default] }
  else
    { ptr := .slot p.arenaId p.index, hit := true,
      pool := { p with index := p.index + 1 }, freshVals := freshVals }

/-- objectSyncPool wraps a sync.Pool of objectPool values.  The pool is
modelled as an explicit free list; name, size and hasLogger are the
values captured by the New closure, and nextArenaId supplies the
identity of each freshly constructed backing array. -/
structure objectSyncPool (T : Type) where
  name : String
  size : Int
  hasLogger : Bool
  free : List (objectPool T)
  nextArenaId : Nat
deriving DecidableEq

/-- newObjectSyncPool mirrors the source constructor. -/
def newObjectSyncPool (T : Type) (name : String) (size : Int) (hasLogger : Bool) :
    objectSyncPool T :=
  { name := name, size := size, hasLogger := hasLogger, free := [], nextArenaId := 0 }

/-- Get mirrors objectSyncPool.Get: take a pool from the free list (or
construct a new one via the New closure), then reset its cursor to 0
and overwrite every slot with the zero value. -/
def objectSyncPool.Get {T : Type} [Inhabited T] (w : objectSyncPool T) :
    objectPool T × objectSyncPool T :=
  match w.free with
  | o :: rest =>
    ({ o with index := 0, data := List.replicate o.data.length default },
     { w with free := rest })
  | [] =>
    let o := newObjectPool T w.name w.size w.hasLogger w.nextArenaId
    ({ o with index := 0, data := List.replicate o.data.length default },
     { w with nextArenaId := w.nextArenaId + 1 })

/-- Put mirrors objectSyncPool.Put: the pool object enters the free
list unchanged (in particular its logger reference stays attached). -/
def objectSyncPool.Put {T : Type} (w : objectSyncPool T) (v : objectPool T) :
    objectSyncPool T :=
  { w with free := v :: w.free }

/-- The options set by functional options; the logger interface value
itself is modelled by its presence. -/
structure options where
  name : String
  hasLogger : Bool
deriving DecidableEq

/-- WithLogger sets the telemetry name and attaches a logger. -/
def WithLogger (name : String) : options → options :=
  fun c => { c with name := name, hasLogger := true }

/-- ReqCache state: configuration, the session-id keyed map of LRU
caches with its recycling pool, the session-id keyed map of object
arenas with its recycling pool, and the list of standalone heap
allocations made so far (the model of the Go heap cells created by the
builtin new, needed to give fresh pointers distinct addresses). -/
structure ReqCache (K : Type) (T : Type) where
  op : options
  cacheSize : Int
  objSize : Int
  data : List (Nat × LruCache K)
  dataPool : cachePool K
  objects : List (Nat × objectPool T)
  objectsPool : objectSyncPool T
  freshVals : List T
deriving DecidableEq

/-- validate mirrors the source validation routine. -/
def ReqCache.validate {K T : Type} (m : ReqCache K T) : Option GoError :=
  if m.cacheSize ≤ 0 then some .cacheSizeNotPositive
  else if m.objSize ≤ 0 then some .objSizeNotPositive
  else if m.op.hasLogger && decide (m.op.name = "") then some .operationNameNotSet
  else none

/-- New mirrors the source constructor: build the state with a nil
objects pool, apply the functional options, validate, and only then
install the objectSyncPool built from the validated configuration. -/
def ReqCache.New (K T : Type) [Inhabited T] (objSize cacheSize : Int)
    (opts : List (options → options)) : Except GoError (ReqCache K T) :=
  let op := opts.foldl (fun o f => f o) { name := "", hasLogger := false }
  let m : ReqCache K T :=
    { op := op, cacheSize := cacheSize, objSize := objSize,
      data := [], dataPool := newPoolWrapper K cacheSize,
      objects := [], objectsPool := newObjectSyncPool T "" 0 false,
      freshVals := [] }
  match m.validate with
  | some e => .error e
  | none => .ok { m with objectsPool := newObjectSyncPool T op.name objSize op.hasLogger }

/-- NewObject mirrors the source: resolve the session id, lazily pull
an arena from the recycling pool for this session, and delegate to the
arena get. -/
def ReqCache.NewObject {K T : Type} [Inhabited T] (m : ReqCache K T) (ctx : Context) :
    Except GoError Ptr × ReqCache K T :=
  match fromContext ctx with
  | .error e => (.error e, m)
  | .ok requestKey =>
    let pm : objectPool T × ReqCache K T :=
      match mapLookup m.objects requestKey with
      | some p => (p, m)
      | none =>
        let gp := m.objectsPool.Get
        (gp.1, { m with objectsPool := gp.2,
                        objects := mapInsert m.objects requestKey gp.1 })
    let r := pm.1.get pm.2.freshVals
    (.ok r.ptr, { pm.2 with objects := mapInsert pm.2.objects requestKey r.pool,
                            freshVals := r.freshVals })

/-- Put mirrors the source: resolve the session id, lazily pull an LRU
cache from the recycling pool for this session, and add the entry. -/
def ReqCache.Put {K T : Type} [DecidableEq K] (m : ReqCache K T) (ctx : Context)
    (dataKey : K) (v : Ptr) : Except GoError Unit × ReqCache K T :=
  match fromContext ctx with
  | .error e => (.error e, m)
  | .ok requestKey =>
    let dm : LruCache K × ReqCache K T :=
      match mapLookup m.data requestKey with
      | some d => (d, m)
      | none =>
        let gd := m.dataPool.Get
        (gd.1, { m with dataPool := gd.2 })
    (.ok (), { dm.2 with data := mapInsert dm.2.data requestKey (dm.1.Add dataKey v) })

/-- Exists mirrors the source: report whether the key is present in the
cache of this session, false when no cache exists yet. -/
def ReqCache.Exists {K T : Type} [DecidableEq K] (m : ReqCache K T) (ctx : Context)
    (dataKey : K) : Except GoError Bool × ReqCache K T :=
  match fromContext ctx with
  | .error e => (.error e, m)
  | .ok requestKey =>
    match mapLookup m.data requestKey with
    | none => (.ok false, m)
    | some d => (.ok (d.Contains dataKey), m)

/-- Delete mirrors the source: remove the key from the cache of this
session, reporting whether it was present. -/
def ReqCache.Delete {K T : Type} [DecidableEq K] (m : ReqCache K T) (ctx : Context)
    (dataKey : K) : Except GoError Bool × ReqCache K T :=
  match fromContext ctx with
  | .error e => (.error e, m)
  | .ok requestKey =>
    match mapLookup m.data requestKey with
    | none => (.ok false, m)
    | some d =>
      let r := d.Remove dataKey
      (.ok r.1, { m with data := mapInsert m.data requestKey r.2 })

/-- Get mirrors the source: resolve the session id and look the key up
in the cache of this session; no cache entry is created when none
exists.  The internal recency mutation of the LRU is reflected by
writing the updated cache back into the map. -/
def ReqCache.Get {K T : Type} [DecidableEq K] (m : ReqCache K T) (ctx : Context)
    (dataKey : K) : Except GoError (Ptr × Bool) × ReqCache K T :=
  match fromContext ctx with
  | .error e => (.error e, m)
  | .ok requestKey =>
    match mapLookup m.data requestKey with
    | none => (.ok (Ptr.null, false), m)
    | some d =>
      let r := d.Get dataKey
      (.ok r.1, { m with data := mapInsert m.data requestKey r.2 })

/-- GetOrFetch mirrors the source; the caller-supplied fetcher is
modelled by the outcome it would return (its side effects are outside
the manager). -/
def ReqCache.GetOrFetch {K T : Type} [DecidableEq K] (m : ReqCache K T) (ctx : Context)
    (dataKey : K) (fetcher : Except GoError Ptr) : Except GoError Ptr × ReqCache K T :=
  match m.Get ctx dataKey with
  | (.error e, m1) => (.error e, m1)
  | (.ok (v, true), m1) => (.ok v, m1)
  | (.ok (_, false), m1) =>
    match fetcher with
    | .error e => (.error e, m1)
    | .ok obj =>
      match m1.Put ctx dataKey obj with
      | (.error e, m2) => (.error e, m2)
      | (.ok _, m2) => (.ok obj, m2)

/-- GetOrNew mirrors the source; the caller-supplied prepare callback
is modelled by the error outcome it would return (its in-place
initialization acts on object contents, which the manager state does
not track). -/
def ReqCache.GetOrNew {K T : Type} [DecidableEq K] [Inhabited T] (m : ReqCache K T)
    (ctx : Context) (dataKey : K) (prepare : Except GoError Unit) :
    Except GoError Ptr × ReqCache K T :=
  match m.Get ctx dataKey with
  | (.error e, m1) => (.error e, m1)
  | (.ok (v, true), m1) => (.ok v, m1)
  | (.ok (_, false), m1) =>
    match m1.NewObject ctx with
    | (.error e, m2) => (.error e, m2)
    | (.ok obj, m2) =>
      match prepare with
      | .error e => (.error e, m2)
      | .ok _ =>
        match m2.Put ctx dataKey obj with
        | (.error e, m3) => (.error e, m3)
        | (.ok _, m3) => (.ok obj, m3)

/-- EndSession mirrors the source: resolve the session id, remove and
recycle the cache entry if present, then remove and recycle the arena
entry if present. -/
def ReqCache.EndSession {K T : Type} (m : ReqCache K T) (ctx : Context) :
    Except GoError Unit × ReqCache K T :=
  match fromContext ctx with
  | .error e => (.error e, m)
  | .ok requestKey =>
    let m1 :=
      match mapLookup m.data requestKey with
      | some v => { m with data := mapRemove m.data requestKey,
                           dataPool := m.dataPool.Put v }
      | none => m
    let m2 :=
      match mapLookup m1.objects requestKey with
      | some v => { m1 with objects := mapRemove m1.objects requestKey,
                            objectsPool := m1.objectsPool.Put v }
      | none => m1
    (.ok (), m2)

/-- iterNewObject performs n successive NewObject calls, collecting the
results in call order. -/
def iterNewObject {K T : Type} [Inhabited T] (m : ReqCache K T) (ctx : Context) :
    Nat → List (Except GoError Ptr) × ReqCache K T
  | 0 => ([], m)
  | n + 1 =>
    let acc := iterNewObject m ctx n
    let r := acc.2.NewObject ctx
    (acc.1 ++ [r.1], r.2)

/-- One cache operation of a Put/Get trace within one session. -/
inductive CacheOp (K : Type) where
  | put (k : K) (v : Ptr)
  | get (k : K)
deriving DecidableEq

/-- runCacheOps replays a sequence of Put and Get calls against the
manager, all with the same context. -/
def runCacheOps {K T : Type} [DecidableEq K] (m : ReqCache K T) (ctx : Context) :
    List (CacheOp K) → ReqCache K T
  | [] => m
  | .put k v :: ops => runCacheOps (m.Put ctx k v).2 ctx ops
  | .get k :: ops => runCacheOps (m.Get ctx k).2 ctx ops

/-- State of one arena of a session together with the standalone heap
allocations made through it, used to reason about the contents the
returned pointers refer to. -/
structure AllocState (T : Type) where
  pool : objectPool T
  freshVals : List T
deriving DecidableEq

/-- One step of a caller interacting with an arena: either a NewObject
call (which delegates to objectPool.get) or a write through a pointer
the caller holds. -/
inductive AOp (T : Type) where
  | take
  | write (p : Ptr) (v : T)
deriving DecidableEq

/-- readPtr dereferences a pointer against the arena backing array or
the standalone heap cells. -/
def readPtr {T : Type} (s : AllocState T) : Ptr → Option T
  | .slot a i => if a = s.pool.arenaId then s.pool.data[i]? else none
  | .fresh n => s.freshVals[n]?
  | _ => none

/-- writePtr stores a value through a pointer. -/
def writePtr {T : Type} (s : AllocState T) (p : Ptr) (v : T) : AllocState T :=
  match p with
  | .slot a i =>
    if a = s.pool.arenaId then
      { s with pool := { s.pool with data := s.pool.data.set i v } }
    else s
  | .fresh n => { s with freshVals := s.freshVals.set n v }
  | _ => s

/-- validRun checks that every write of the trace goes through a
pointer previously returned by a take of the same trace (or listed in
the initial issued set). -/
def validRun {T : Type} [Inhabited T] :
    AllocState T → List Ptr → List (AOp T) → Bool
  | _, _, [] => true
  | s, issued, .take :: ops =>
    let r := s.pool.get s.freshVals
    validRun { pool := r.pool, freshVals := r.freshVals } (r.ptr :: issued) ops
  | s, issued, .write q v :: ops =>
    decide (q ∈ issued) && validRun (writePtr s q v) issued ops

/-- takeReads replays a trace and records, for every take, the value
the returned pointer refers to at the moment it is returned. -/
def takeReads {T : Type} [Inhabited T] : AllocState T → List (AOp T) → List (Option T)
  | _, [] => []
  | s, .take :: ops =>
    let r := s.pool.get s.freshVals
    let s2 : AllocState T := { pool := r.pool, freshVals := r.freshVals }
    readPtr s2 r.ptr :: takeReads s2 ops
  | s, .write q v :: ops => takeReads (writePtr s q v) ops

/-! Basic lemmas about the Go map model. -/

theorem mapLookup_insert_self {A : Type} (m : List (Nat × A)) (k : Nat) (v : A) :
    mapLookup (mapInsert m k v) k = some v := by
  induction m with
  | nil => simp [mapInsert, mapLookup]
  | cons e es ih =>
    by_cases h : e.1 = k
    · simp [mapInsert, mapLookup, h]
    · simp [mapInsert, mapLookup, h, ih]

theorem mapLookup_insert_ne {A : Type} (m : List (Nat × A)) (k j : Nat) (v : A)
    (h : ¬ k = j) : mapLookup (mapInsert m k v) j = mapLookup m j := by
  induction m with
  | nil => simp [mapInsert, mapLookup, h]
  | cons e es ih =>
    by_cases he : e.1 = k
    · simp [mapInsert, mapLookup, he, h]
    · simp only [mapInsert, he, if_false, mapLookup]
      by_cases hej : e.1 = j <;> simp [hej, ih]

theorem mapInsert_lookup_self {A : Type} {m : List (Nat × A)} {k : Nat} {v : A}
    (h : mapLookup m k = some v) : mapInsert m k v = m := by
  induction m with
  | nil => simp [mapLookup] at h
  | cons e es ih =>
    obtain ⟨e1, e2⟩ := e
    by_cases he : e1 = k
    · simp [mapLookup, he] at h
      simp [mapInsert, he, h]
    · simp [mapLookup, he] at h
      simp [mapInsert, he, ih h]

theorem mapLookup_remove_self {A : Type} (m : List (Nat × A)) (k : Nat) :
    mapLookup (mapRemove m k) k = none := by
  induction m with
  | nil => rfl
  | cons e es ih =>
    by_cases h : e.1 = k
    · simp [mapRemove, h, ih]
    · simp [mapRemove, mapLookup, h, ih]

/-! Easy facts about individual operations. -/

theorem lru_get_miss_eq {K : Type} [DecidableEq K] {c : LruCache K} {k : K} {p : Ptr}
    (h : (c.Get k).1 = (p, false)) : (c.Get k).2 = c := by
  unfold LruCache.Get at h ⊢
  cases hf : c.entries.find? (fun e => decide (e.1 = k)) with
  | some e => simp only [hf] at h; simp at h
  | none => rfl

/-- On a miss, Get leaves the manager state unchanged (in the Go code
the map is untouched and the LRU recency list only changes on a hit). -/
theorem get_miss_state {K T : Type} [DecidableEq K] {m : ReqCache K T} {ctx : Context}
    {k : K} {p : Ptr} (h : (m.Get ctx k).1 = .ok (p, false)) : (m.Get ctx k).2 = m := by
  match ctx with
  | .nilCtx => rfl
  | .valid none => rfl
  | .valid (some sid) =>
    unfold ReqCache.Get at h ⊢
    simp only [fromContext] at h ⊢
    cases hd : mapLookup m.data sid with
    | none => rfl
    | some d =>
      simp only [hd] at h ⊢
      have hds : (d.Get k).1 = (p, false) := Except.ok.inj h
      have hd2 : (d.Get k).2 = d := lru_get_miss_eq hds
      rw [hd2, mapInsert_lookup_self hd]

theorem newObject_preserves_data {K T : Type} [Inhabited T] (m : ReqCache K T)
    (ctx : Context) :
    ((m.NewObject ctx).2).data = m.data ∧ ((m.NewObject ctx).2).dataPool = m.dataPool := by
  match ctx with
  | .nilCtx => exact ⟨rfl, rfl⟩
  | .valid none => exact ⟨rfl, rfl⟩
  | .valid (some sid) =>
    unfold ReqCache.NewObject
    simp only [fromContext]
    cases hl : mapLookup m.objects sid <;> simp [hl]

theorem newObject_ok {K T : Type} [Inhabited T] (m : ReqCache K T) {ctx : Context}
    {sid : Nat} (h : fromContext ctx = .ok sid) :
    ∃ p, (m.NewObject ctx).1 = .ok p := by
  match ctx with
  | .nilCtx => exact absurd h (by simp [fromContext])
  | .valid none => exact absurd h (by simp [fromContext])
  | .valid (some s) =>
    unfold ReqCache.NewObject
    simp only [fromContext]
    cases hl : mapLookup m.objects s <;> simp [hl]

/-- Claim C3 (the failing input): the constructor rejects a zero cache
capacity and a zero object capacity, although the package documentation
and the benchmark in the repository use zero to mean the feature is
disabled.  The first input is exactly the call made by the benchmark
BenchmarkWithBatchAllocation. -/
theorem new_rejects_zero_capacities :
    ReqCache.New Nat Nat 10000 0 [] = .error .cacheSizeNotPositive ∧
    ReqCache.New Nat Nat 0 10 [] = .error .objSizeNotPositive ∧
    ReqCache.New Nat Nat 10 10 [WithLogger ""] = .error .operationNameNotSet := by
  refine ⟨rfl, rfl, rfl⟩

/-- Claim C6: every operation that requires a session returns the
no-session error as an ordinary value when the context is nil or
carries no session id, and leaves the manager state (in particular both
per-session maps) unchanged. -/
theorem ops_return_no_session_error {K T : Type} [DecidableEq K] [Inhabited T]
    (m : ReqCache K T) (ctx : Context) (h : ctx = .nilCtx ∨ ctx = .valid none)
    (k : K) (v : Ptr) (fr : Except GoError Ptr) (pr : Except GoError Unit) :
    m.NewObject ctx = (.error .noSessionInContext, m) ∧
    m.Put ctx k v = (.error .noSessionInContext, m) ∧
    m.Get ctx k = (.error .noSessionInContext, m) ∧
    m.Exists ctx k = (.error .noSessionInContext, m) ∧
    m.Delete ctx k = (.error .noSessionInContext, m) ∧
    m.GetOrFetch ctx k fr = (.error .noSessionInContext, m) ∧
    m.GetOrNew ctx k pr = (.error .noSessionInContext, m) ∧
    m.EndSession ctx = (.error .noSessionInContext, m) := by
  rcases h with rfl | rfl <;> exact ⟨rfl, rfl, rfl, rfl, rfl, rfl, rfl, rfl⟩

/-- Witness for claim C6 at a concrete manager and both degenerate
contexts. -/
theorem ops_return_no_session_error_witness :
    (ReqCache.NewObject (⟨⟨"", false⟩, 1, 1, [], ⟨1, []⟩, [], ⟨"", 1, false, [], 0⟩, []⟩ :
        ReqCache Nat Nat) .nilCtx =
      (.error .noSessionInContext,
       ⟨⟨"", false⟩, 1, 1, [], ⟨1, []⟩, [], ⟨"", 1, false, [], 0⟩, []⟩)) ∧
    (ReqCache.EndSession (⟨⟨"", false⟩, 1, 1, [], ⟨1, []⟩, [], ⟨"", 1, false, [], 0⟩, []⟩ :
        ReqCache Nat Nat) (.valid none) =
      (.error .noSessionInContext,
       ⟨⟨"", false⟩, 1, 1, [], ⟨1, []⟩, [], ⟨"", 1, false, [], 0⟩, []⟩)) :=
  ⟨(ops_return_no_session_error _ .nilCtx (Or.inl rfl) 0 .null (.ok .null) (.ok ())).1,
   (ops_return_no_session_error _ (.valid none) (Or.inr rfl) 0 .null (.ok .null)
      (.ok ())).2.2.2.2.2.2.2⟩

/-- Claim C8 (counterexample): objectSyncPool.Put places the arena into
the pool unchanged, with its logger reference still attached, so the
logger is not detached before the arena enters the pool. -/
theorem syncPool_put_keeps_logger_counterexample :
    (objectSyncPool.Put (⟨"n", 1, true, [], 1⟩ : objectSyncPool Nat)
        ⟨0, [0], 1, "n", true⟩).free = [⟨0, [0], 1, "n", true⟩] ∧
    (⟨0, [0], 1, "n", true⟩ : objectPool Nat).hasLogger = true :=
  ⟨rfl, rfl⟩

/-- Claim C8 (amended): at session end the cache is purged before it
enters its pool, while the arena enters its pool unchanged — its logger
reference stays attached — and is instead reset (cursor zeroed, every
slot overwritten with the zero value) when it is next acquired from the
pool. -/
theorem release_and_reacquire_reset {K T : Type} [Inhabited T]
    (pool : cachePool K) (c : LruCache K) (w : objectSyncPool T) (v : objectPool T) :
    (cachePool.Put pool c).free.head? = some (LruCache.Purge c) ∧
    (LruCache.Purge c).entries = [] ∧
    (objectSyncPool.Put w v).free = v :: w.free ∧
    ((objectSyncPool.Get w).1).index = 0 ∧
    (∀ x ∈ ((objectSyncPool.Get w).1).data, x = (default : T)) := by
  have hidx : ((objectSyncPool.Get w).1).index = 0 := by
    unfold objectSyncPool.Get
    cases w.free <;> rfl
  have hdata : ∀ x ∈ ((objectSyncPool.Get w).1).data, x = (default : T) := by
    unfold objectSyncPool.Get
    cases w.free with
    | nil => exact fun x hx => List.eq_of_mem_replicate hx
    | cons o rest => exact fun x hx => List.eq_of_mem_replicate hx
  exact ⟨rfl, rfl, rfl, hidx, hdata⟩

theorem mapRemove_lookup_none {A : Type} {m : List (Nat × A)} {k : Nat}
    (h : mapLookup m k = none) : mapRemove m k = m := by
  induction m with
  | nil => rfl
  | cons e es ih =>
    by_cases he : e.1 = k
    · simp [mapLookup, he] at h
    · simp [mapLookup, he] at h
      simp [mapRemove, he, ih h]

theorem mintIds_closed : ∀ (n ctr : Nat), ctr + n < 2 ^ 64 →
    mintIds ctr n = (List.range n).map (fun i => ctr + 1 + i) := by
  intro n
  induction n with
  | zero => intro ctr _; rfl
  | succ n ih =>
    intro ctr h
    have h1 : ctr + 1 < 2 ^ 64 := by omega
    have hmod : (ctr + 1) % 2 ^ 64 = ctr + 1 := Nat.mod_eq_of_lt h1
    have hstep : mintIds ctr (n + 1) =
        ((ctr + 1) % 2 ^ 64) :: mintIds ((ctr + 1) % 2 ^ 64) n := rfl
    rw [hstep, hmod, ih (ctr + 1) (by omega)]
    rw [List.range_succ_eq_map, List.map_cons, List.map_map]
    refine List.cons_eq_cons.mpr ⟨by simp, ?_⟩
    exact List.map_congr_left fun a _ => by simp [Function.comp]; omega

/-- Claim C5: starting a session on a context that already carries a
session id fails with the session-already-exists error; otherwise a
child context is returned carrying the atomically incremented
process-wide counter; the ids minted from the initial counter value 0
start at 1, strictly increase across successive session starts, and are
never reused (stated while the 64-bit counter has not wrapped). -/
theorem newSession_unique_increasing_ids (ctr id n : Nat) (h : n < 2 ^ 64) :
    NewSession (.valid (some id)) ctr = (.error .sessionAlreadyExists, ctr) ∧
    NewSession (.valid none) ctr =
      (.ok (.valid (some ((ctr + 1) % 2 ^ 64))), (ctr + 1) % 2 ^ 64) ∧
    mintIds 0 n = (List.range n).map (fun i => i + 1) ∧
    List.Pairwise (· < ·) (mintIds 0 n) ∧
    (mintIds 0 n).Nodup ∧
    (∀ i ∈ mintIds 0 n, 1 ≤ i) := by
  have hclosed : mintIds 0 n = (List.range n).map (fun i => i + 1) := by
    rw [mintIds_closed n 0 (by omega)]
    exact List.map_congr_left fun a _ => by omega
  have hpair : List.Pairwise (· < ·) (mintIds 0 n) := by
    rw [hclosed]
    exact (List.pairwise_lt_range n).map (fun i => i + 1)
      (fun a b hab => by show a + 1 < b + 1; omega)
  refine ⟨rfl, rfl, hclosed, hpair, hpair.imp (fun hab => Nat.ne_of_lt hab), ?_⟩
  rw [hclosed]
  intro i hi
  simp only [List.mem_map] at hi
  obtain ⟨j, _, hj⟩ := hi
  omega

/-- Witness for claim C5 at counter 0 with three session starts. -/
theorem newSession_unique_increasing_ids_witness :
    NewSession (.valid (some 5)) 7 = (.error .sessionAlreadyExists, 7) ∧
    mintIds 0 3 = [1, 2, 3] := by
  have h := newSession_unique_increasing_ids 7 5 3 (by norm_num)
  have h2 := newSession_unique_increasing_ids 0 5 3 (by norm_num)
  exact ⟨h.1, by rw [h2.2.2.1]; rfl⟩

theorem endSession_noop {K T : Type} {m : ReqCache K T} {s : Nat}
    (hd : mapLookup m.data s = none) (ho : mapLookup m.objects s = none) :
    m.EndSession (.valid (some s)) = (.ok (), m) := by
  unfold ReqCache.EndSession
  simp only [fromContext, hd, ho]

theorem endSession_state {K T : Type} (m : ReqCache K T) (s : Nat) :
    (m.EndSession (.valid (some s))).1 = .ok () ∧
    ((m.EndSession (.valid (some s))).2).data = mapRemove m.data s ∧
    ((m.EndSession (.valid (some s))).2).objects = mapRemove m.objects s := by
  unfold ReqCache.EndSession
  simp only [fromContext]
  cases hd : mapLookup m.data s <;> cases ho : mapLookup m.objects s <;>
    simp [hd, ho, mapRemove_lookup_none]

/-- Claim C4: for a context carrying a session id, EndSession removes
the entries of that session from both per-session maps and returns
success; afterwards Get on any key returns found=false, and a second
EndSession call is a no-op returning success, not an error. -/
theorem endSession_removes_and_idempotent {K T : Type} [DecidableEq K]
    (m : ReqCache K T) (sid : Nat) :
    (m.EndSession (.valid (some sid))).1 = .ok () ∧
    mapLookup ((m.EndSession (.valid (some sid))).2).data sid = none ∧
    mapLookup ((m.EndSession (.valid (some sid))).2).objects sid = none ∧
    (∀ k : K, (((m.EndSession (.valid (some sid))).2).Get (.valid (some sid)) k).1 =
      .ok (Ptr.null, false)) ∧
    ((m.EndSession (.valid (some sid))).2).EndSession (.valid (some sid)) =
      (.ok (), (m.EndSession (.valid (some sid))).2) := by
  obtain ⟨h1, h2, h3⟩ := endSession_state m sid
  have hd : mapLookup ((m.EndSession (.valid (some sid))).2).data sid = none := by
    rw [h2]; exact mapLookup_remove_self m.data sid
  have ho : mapLookup ((m.EndSession (.valid (some sid))).2).objects sid = none := by
    rw [h3]; exact mapLookup_remove_self m.objects sid
  refine ⟨h1, hd, ho, ?_, endSession_noop hd ho⟩
  intro k
  unfold ReqCache.Get
  simp only [fromContext, hd]

/-- Witness for claim C4 at a concrete manager holding one entry in
each map for session 1. -/
theorem endSession_removes_and_idempotent_witness :
    (ReqCache.EndSession (⟨⟨"", false⟩, 1, 1, [(1, ⟨1, [(5, Ptr.ext 3)]⟩)], ⟨1, []⟩,
        [(1, ⟨0, [0], 1, "", false⟩)], ⟨"", 1, false, [], 1⟩, []⟩ : ReqCache Nat Nat)
      (.valid (some 1))).1 = .ok () ∧
    mapLookup ((ReqCache.EndSession (⟨⟨"", false⟩, 1, 1, [(1, ⟨1, [(5, Ptr.ext 3)]⟩)],
        ⟨1, []⟩, [(1, ⟨0, [0], 1, "", false⟩)], ⟨"", 1, false, [], 1⟩, []⟩ :
          ReqCache Nat Nat) (.valid (some 1))).2).data 1 = none :=
  ⟨(endSession_removes_and_idempotent _ 1).1,
   (endSession_removes_and_idempotent _ 1).2.1⟩

theorem get_fst_eq_of_data_eq {K T : Type} [DecidableEq K] (m1 m2 : ReqCache K T)
    (ctx : Context) (k : K) (h : m1.data = m2.data) :
    (m1.Get ctx k).1 = (m2.Get ctx k).1 := by
  match ctx with
  | .nilCtx => rfl
  | .valid none => rfl
  | .valid (some s) =>
    unfold ReqCache.Get
    simp only [fromContext]
    rw [h]
    cases hd : mapLookup m2.data s <;> simp [hd]

/-- Claim C7: when the fetch callback of GetOrFetch or the prepare
callback of GetOrNew reports an error on a cache miss, the operation
returns that error verbatim and stores nothing in the session cache
under the requested key (GetOrFetch leaves the whole state unchanged;
GetOrNew leaves the cache map unchanged and a subsequent Get still
misses). -/
theorem callback_error_propagated_nothing_stored {K T : Type} [DecidableEq K]
    [Inhabited T] (m : ReqCache K T) (ctx : Context) (sid : Nat) (k : K) (e : GoError)
    (hs : fromContext ctx = .ok sid)
    (hmiss : (m.Get ctx k).1 = .ok (Ptr.null, false)) :
    m.GetOrFetch ctx k (.error e) = (.error e, m) ∧
    (m.GetOrNew ctx k (.error e)).1 = .error e ∧
    ((m.GetOrNew ctx k (.error e)).2).data = m.data ∧
    (((m.GetOrNew ctx k (.error e)).2).Get ctx k).1 = .ok (Ptr.null, false) := by
  have hst : (m.Get ctx k).2 = m := get_miss_state hmiss
  have hG : m.Get ctx k = (.ok (Ptr.null, false), m) := Prod.ext_iff.mpr ⟨hmiss, hst⟩
  obtain ⟨pp, hpp⟩ := newObject_ok m hs
  have hdp := (newObject_preserves_data m ctx).1
  have hfetch : m.GetOrFetch ctx k (.error e) = (.error e, m) := by
    unfold ReqCache.GetOrFetch
    simp only [hG]
  have hnew2 : m.GetOrNew ctx k (.error e) = (.error e, (m.NewObject ctx).2) := by
    unfold ReqCache.GetOrNew
    simp only [hG]
    rcases hE2 : m.NewObject ctx with ⟨r, m2⟩
    rw [hE2] at hpp
    replace hpp : r = Except.ok pp := hpp
    subst hpp
    rfl
  refine ⟨hfetch, ?_, ?_, ?_⟩
  · rw [hnew2]
  · rw [hnew2]
    exact hdp
  · rw [hnew2]
    show (((m.NewObject ctx).2).Get ctx k).1 = _
    rw [get_fst_eq_of_data_eq _ m ctx k hdp]
    exact hmiss

/-- Witness for claim C7 at a concrete manager with an empty cache. -/
theorem callback_error_propagated_nothing_stored_witness :
    ReqCache.GetOrFetch (⟨⟨"", false⟩, 1, 1, [], ⟨1, []⟩, [], ⟨"", 1, false, [], 0⟩, []⟩ :
        ReqCache Nat Nat) (.valid (some 1)) 5 (.error (.user 9)) =
      (.error (.user 9),
       ⟨⟨"", false⟩, 1, 1, [], ⟨1, []⟩, [], ⟨"", 1, false, [], 0⟩, []⟩) ∧
    (ReqCache.GetOrNew (⟨⟨"", false⟩, 1, 1, [], ⟨1, []⟩, [], ⟨"", 1, false, [], 0⟩, []⟩ :
        ReqCache Nat Nat) (.valid (some 1)) 5 (.error (.user 9))).1 = .error (.user 9) :=
  ⟨(callback_error_propagated_nothing_stored
      (⟨⟨"", false⟩, 1, 1, [], ⟨1, []⟩, [], ⟨"", 1, false, [], 0⟩, []⟩ : ReqCache Nat Nat)
      (.valid (some 1)) 1 5 (.user 9) rfl rfl).1,
   (callback_error_propagated_nothing_stored
      (⟨⟨"", false⟩, 1, 1, [], ⟨1, []⟩, [], ⟨"", 1, false, [], 0⟩, []⟩ : ReqCache Nat Nat)
      (.valid (some 1)) 1 5 (.user 9) rfl rfl).2.1⟩

theorem new_ok_maps_empty {K T : Type} [Inhabited T] {o c : Int}
    {opts : List (options → options)} {m : ReqCache K T}
    (h : ReqCache.New K T o c opts = .ok m) : m.data = [] ∧ m.objects = [] := by
  unfold ReqCache.New at h
  simp only [] at h
  split at h
  · exact absurd h (by simp)
  · injection h with h2
    subst h2
    exact ⟨rfl, rfl⟩

/-- Claim C9 (counterexample): on a fresh manager, a Get for a session
with no cache entry returns found=false and leaves the manager
unchanged — in particular the cache map is still empty, so no entry was
created, contrary to the claim. -/
theorem get_does_not_create_entry_counterexample :
    ReqCache.New Nat Nat 1 1 [] =
      .ok ⟨⟨"", false⟩, 1, 1, [], ⟨1, []⟩, [], ⟨"", 1, false, [], 0⟩, []⟩ ∧
    ReqCache.Get (⟨⟨"", false⟩, 1, 1, [], ⟨1, []⟩, [], ⟨"", 1, false, [], 0⟩, []⟩ :
        ReqCache Nat Nat) (.valid (some 1)) 0 =
      (.ok (Ptr.null, false),
       ⟨⟨"", false⟩, 1, 1, [], ⟨1, []⟩, [], ⟨"", 1, false, [], 0⟩, []⟩) ∧
    (⟨⟨"", false⟩, 1, 1, [], ⟨1, []⟩, [], ⟨"", 1, false, [], 0⟩, []⟩ :
        ReqCache Nat Nat).data = [] :=
  ⟨rfl, rfl, rfl⟩

/-- Claim C9 (amended): per-session entries are absent until first use
(a fresh manager has empty maps); NewObject lazily creates the missing
arena entry by pulling from the arena recycling pool and Put lazily
creates the missing cache entry by pulling from the cache recycling
pool; Get on a session with no cache entry returns found=false and does
not create one (the state is unchanged). -/
theorem lazy_creation_newobject_put_not_get {K T : Type} [DecidableEq K] [Inhabited T]
    (o c : Int) (opts : List (options → options)) (m0 : ReqCache K T)
    (m : ReqCache K T) (ctx : Context) (sid : Nat) (k : K) (v : Ptr)
    (hnew : ReqCache.New K T o c opts = .ok m0)
    (hs : fromContext ctx = .ok sid) :
    m0.data = [] ∧ m0.objects = [] ∧
    (mapLookup m.objects sid = none →
      mapLookup ((m.NewObject ctx).2).objects sid =
        some ((((m.objectsPool.Get).1).get m.freshVals).pool)) ∧
    (mapLookup m.data sid = none →
      mapLookup ((m.Put ctx k v).2).data sid =
        some (((m.dataPool.Get).1).Add k v)) ∧
    (mapLookup m.data sid = none → m.Get ctx k = (.ok (Ptr.null, false), m)) := by
  obtain ⟨he1, he2⟩ := new_ok_maps_empty hnew
  match ctx with
  | .nilCtx => simp [fromContext] at hs
  | .valid none => simp [fromContext] at hs
  | .valid (some s) =>
    have hss : s = sid := by simpa [fromContext] using hs
    subst hss
    refine ⟨he1, he2, ?_, ?_, ?_⟩
    · intro hno
      unfold ReqCache.NewObject
      simp only [fromContext, hno]
      simp [mapLookup_insert_self]
    · intro hnd
      unfold ReqCache.Put
      simp only [fromContext, hnd]
      simp [mapLookup_insert_self]
    · intro hnd
      unfold ReqCache.Get
      simp only [fromContext, hnd]

/-- Witness for the amended claim C9 at a fresh concrete manager. -/
theorem lazy_creation_newobject_put_not_get_witness :
    mapLookup ((ReqCache.NewObject (⟨⟨"", false⟩, 1, 1, [], ⟨1, []⟩, [],
        ⟨"", 1, false, [], 0⟩, []⟩ : ReqCache Nat Nat) (.valid (some 1))).2).objects 1 =
      some ⟨0, [0], 1, "", false⟩ ∧
    mapLookup ((ReqCache.Put (⟨⟨"", false⟩, 1, 1, [], ⟨1, []⟩, [],
        ⟨"", 1, false, [], 0⟩, []⟩ : ReqCache Nat Nat) (.valid (some 1)) 5
        (Ptr.ext 2)).2).data 1 = some ⟨1, [(5, Ptr.ext 2)]⟩ := by
  have h := lazy_creation_newobject_put_not_get 1 1 []
    (⟨⟨"", false⟩, 1, 1, [], ⟨1, []⟩, [], ⟨"", 1, false, [], 0⟩, []⟩ : ReqCache Nat Nat)
    (⟨⟨"", false⟩, 1, 1, [], ⟨1, []⟩, [], ⟨"", 1, false, [], 0⟩, []⟩ : ReqCache Nat Nat)
    (.valid (some 1)) 1 5 (Ptr.ext 2) rfl rfl
  exact ⟨(h.2.2.1 rfl).trans rfl, (h.2.2.2.1 rfl).trans rfl⟩

theorem lru_add_get {K : Type} [DecidableEq K] (c : LruCache K) (k : K) (v : Ptr)
    (hcap : 0 < c.cap) : ((c.Add k v).Get k).1 = (v, true) := by
  unfold LruCache.Add LruCache.Get
  rcases hc : c.cap with _ | cc
  · omega
  · simp [List.take_succ_cons]

theorem lru_add_find_none {K : Type} [DecidableEq K] {c : LruCache K} {k k2 : K}
    {v : Ptr} (hne : ¬ k2 = k)
    (h : c.entries.find? (fun e => decide (e.1 = k)) = none) :
    ((c.Add k2 v).entries).find? (fun e => decide (e.1 = k)) = none := by
  rw [List.find?_eq_none] at h ⊢
  intro x hx
  unfold LruCache.Add at hx
  have hx2 : x ∈ (k2, v) :: c.entries.filter (fun e => decide (¬ e.1 = k2)) :=
    List.take_subset _ _ hx
  rcases List.mem_cons.mp hx2 with rfl | hx3
  · simpa using hne
  · exact h x (List.mem_of_mem_filter hx3)

theorem lru_get_find_none {K : Type} [DecidableEq K] {c : LruCache K} {k k2 : K}
    (h : c.entries.find? (fun e => decide (e.1 = k)) = none) :
    (((c.Get k2).2).entries).find? (fun e => decide (e.1 = k)) = none := by
  unfold LruCache.Get
  cases hf : c.entries.find? (fun e => decide (e.1 = k2)) with
  | none => exact h
  | some e =>
    have hne : ¬ k2 = k := by
      intro he
      subst he
      rw [hf] at h
      exact Option.noConfusion h
    rw [List.find?_eq_none] at h ⊢
    intro x hx
    rcases List.mem_cons.mp hx with rfl | hx3
    · simpa using hne
    · exact h x (List.mem_of_mem_filter hx3)

theorem c2_trace_invariant {K T : Type} [DecidableEq K] (k : K) :
    ∀ (ops : List (CacheOp K)) (m : ReqCache K T) (ctx : Context),
      (∀ v, CacheOp.put k v ∉ ops) →
      (∀ sid d, mapLookup m.data sid = some d →
        d.entries.find? (fun e => decide (e.1 = k)) = none) →
      (∀ c ∈ m.dataPool.free, c.entries = []) →
      ((∀ sid d, mapLookup (runCacheOps m ctx ops).data sid = some d →
          d.entries.find? (fun e => decide (e.1 = k)) = none) ∧
       (∀ c ∈ (runCacheOps m ctx ops).dataPool.free, c.entries = [])) := by
  intro ops
  induction ops with
  | nil => exact fun m ctx _ hdat hpool => ⟨hdat, hpool⟩
  | cons op ops ih =>
    intro m ctx hput hdat hpool
    have hput2 : ∀ v, CacheOp.put k v ∉ ops := by
      intro v hv
      exact hput v (List.mem_cons_of_mem _ hv)
    match op with
    | .put k2 v =>
      have hne : ¬ k2 = k := by
        intro he
        subst he
        exact hput v (List.mem_cons_self _ _)
      show _ ∧ _
      have hstep : runCacheOps m ctx (.put k2 v :: ops) =
          runCacheOps (m.Put ctx k2 v).2 ctx ops := rfl
      rw [hstep]
      refine ih _ ctx hput2 ?_ ?_
      · match ctx with
        | .nilCtx => exact hdat
        | .valid none => exact hdat
        | .valid (some s) =>
          unfold ReqCache.Put
          simp only [fromContext]
          cases hd : mapLookup m.data s with
          | some d =>
            simp only [hd]
            intro sid d2 hl
            by_cases hss : sid = s
            · subst hss
              rw [mapLookup_insert_self] at hl
              injection hl with hl2
              subst hl2
              exact lru_add_find_none hne (hdat sid d hd)
            · rw [mapLookup_insert_ne _ _ _ _ (fun he => hss he.symm)] at hl
              exact hdat sid d2 hl
          | none =>
            simp only [hd]
            intro sid d2 hl
            by_cases hss : sid = s
            · subst hss
              rw [mapLookup_insert_self] at hl
              injection hl with hl2
              subst hl2
              refine lru_add_find_none hne ?_
              cases hf : m.dataPool.free with
              | nil => simp [cachePool.Get, hf]
              | cons c0 rest =>
                simp only [cachePool.Get, hf]
                rw [hpool c0 (by rw [hf]; exact List.mem_cons_self _ _)]
                rfl
            · rw [mapLookup_insert_ne _ _ _ _ (fun he => hss he.symm)] at hl
              exact hdat sid d2 hl
      · match ctx with
        | .nilCtx => exact hpool
        | .valid none => exact hpool
        | .valid (some s) =>
          unfold ReqCache.Put
          simp only [fromContext]
          cases hd : mapLookup m.data s with
          | some d => simp only [hd]; exact hpool
          | none =>
            simp only [hd]
            cases hf : m.dataPool.free with
            | nil =>
              simp only [cachePool.Get, hf]
              intro c2 hc2
              exact absurd hc2 (List.not_mem_nil c2)
            | cons c0 rest =>
              simp only [cachePool.Get, hf]
              intro c2 hc2
              exact hpool c2 (by rw [hf]; exact List.mem_cons_of_mem _ hc2)
    | .get k2 =>
      have hstep : runCacheOps m ctx (.get k2 :: ops) =
          runCacheOps (m.Get ctx k2).2 ctx ops := rfl
      rw [hstep]
      refine ih _ ctx hput2 ?_ ?_
      · match ctx with
        | .nilCtx => exact hdat
        | .valid none => exact hdat
        | .valid (some s) =>
          unfold ReqCache.Get
          simp only [fromContext]
          cases hd : mapLookup m.data s with
          | none => simp only [hd]; exact hdat
          | some d =>
            simp only [hd]
            intro sid d2 hl
            by_cases hss : sid = s
            · subst hss
              rw [mapLookup_insert_self] at hl
              injection hl with hl2
              subst hl2
              exact lru_get_find_none (hdat sid d hd)
            · rw [mapLookup_insert_ne _ _ _ _ (fun he => hss he.symm)] at hl
              exact hdat sid d2 hl
      · match ctx with
        | .nilCtx => exact hpool
        | .valid none => exact hpool
        | .valid (some s) =>
          unfold ReqCache.Get
          simp only [fromContext]
          cases hd : mapLookup m.data s with
          | none => simp only [hd]; exact hpool
          | some d => simp only [hd]; exact hpool

theorem new_ok_pool_free {K T : Type} [Inhabited T] {o c : Int}
    {opts : List (options → options)} {m : ReqCache K T}
    (h : ReqCache.New K T o c opts = .ok m) : m.dataPool.free = [] := by
  unfold ReqCache.New at h
  simp only [] at h
  split at h
  · exact absurd h (by simp)
  · injection h with h2
    subst h2
    rfl

/-- Claim C2: within one session, Get(k) immediately after Put(k, v)
returns (v, found=true) — provided the caches in play have positive
capacity, which the validated constructor guarantees — and Get on a key
never put during a Put/Get trace of the session reports found=false. -/
theorem put_get_roundtrip_and_never_put_missing {K T : Type} [DecidableEq K]
    [Inhabited T] (m : ReqCache K T) (sid : Nat) (k : K) (v : Ptr)
    (o c : Int) (opts : List (options → options)) (m0 : ReqCache K T)
    (ctx : Context) (kn : K) (ops : List (CacheOp K))
    (hcap : ∀ d, mapLookup m.data sid = some d → 0 < d.cap)
    (hpool : ∀ d ∈ m.dataPool.free, 0 < d.cap)
    (hsize : 0 < m.dataPool.size)
    (hnew : ReqCache.New K T o c opts = .ok m0)
    (hctx : InContext ctx = true)
    (hops : ∀ w, CacheOp.put kn w ∉ ops) :
    ((m.Put (.valid (some sid)) k v).1 = .ok () ∧
     (((m.Put (.valid (some sid)) k v).2).Get (.valid (some sid)) k).1 =
       .ok (v, true)) ∧
    ((runCacheOps m0 ctx ops).Get ctx kn).1 = .ok (Ptr.null, false) := by
  constructor
  · unfold ReqCache.Put
    simp only [fromContext]
    cases hd : mapLookup m.data sid with
    | some d =>
      simp only [hd]
      refine ⟨trivial, ?_⟩
      unfold ReqCache.Get
      simp only [fromContext, mapLookup_insert_self]
      rw [lru_add_get d k v (hcap d hd)]
    | none =>
      simp only [hd]
      refine ⟨trivial, ?_⟩
      unfold ReqCache.Get
      simp only [fromContext, mapLookup_insert_self]
      cases hf : m.dataPool.free with
      | nil =>
        simp only [cachePool.Get, hf]
        have hc2 : 0 < m.dataPool.size.toNat := by omega
        rw [lru_add_get _ k v hc2]
      | cons c0 rest =>
        simp only [cachePool.Get, hf]
        rw [lru_add_get c0 k v (hpool c0 (by rw [hf]; exact List.mem_cons_self _ _))]
  · have hinit1 : ∀ sid3 d, mapLookup m0.data sid3 = some d →
        d.entries.find? (fun e => decide (e.1 = kn)) = none := by
      intro sid3 d hl
      rw [(new_ok_maps_empty hnew).1] at hl
      exact absurd hl (by simp [mapLookup])
    have hinit2 : ∀ c2 ∈ m0.dataPool.free, c2.entries = [] := by
      intro c2 hc2
      rw [new_ok_pool_free hnew] at hc2
      exact absurd hc2 (List.not_mem_nil c2)
    obtain ⟨hinv, _⟩ := c2_trace_invariant kn ops m0 ctx hops hinit1 hinit2
    match ctx with
    | .valid (some s2) =>
      unfold ReqCache.Get
      simp only [fromContext]
      cases hfin : mapLookup (runCacheOps m0 (.valid (some s2)) ops).data s2 with
      | none => simp only [hfin]
      | some d =>
        simp only [hfin]
        have hfind := hinv s2 d hfin
        unfold LruCache.Get
        rw [hfind]

/-- Witness for claim C2 on a fresh concrete manager: a put-get
round trip on key 5 and a trace that never puts key 7. -/
theorem put_get_roundtrip_and_never_put_missing_witness :
    ((ReqCache.Put (⟨⟨"", false⟩, 1, 1, [], ⟨1, []⟩, [], ⟨"", 1, false, [], 0⟩, []⟩ :
        ReqCache Nat Nat) (.valid (some 1)) 5 (Ptr.ext 1)).2.Get
      (.valid (some 1)) 5).1 = .ok (Ptr.ext 1, true) ∧
    ((runCacheOps (⟨⟨"", false⟩, 1, 1, [], ⟨1, []⟩, [], ⟨"", 1, false, [], 0⟩, []⟩ :
        ReqCache Nat Nat) (.valid (some 1))
        [CacheOp.put 5 (Ptr.ext 1), CacheOp.get 7]).Get (.valid (some 1)) 7).1 =
      .ok (Ptr.null, false) := by
  have h := put_get_roundtrip_and_never_put_missing
    (⟨⟨"", false⟩, 1, 1, [], ⟨1, []⟩, [], ⟨"", 1, false, [], 0⟩, []⟩ : ReqCache Nat Nat)
    1 5 (Ptr.ext 1) 1 1 []
    (⟨⟨"", false⟩, 1, 1, [], ⟨1, []⟩, [], ⟨"", 1, false, [], 0⟩, []⟩ : ReqCache Nat Nat)
    (.valid (some 1)) 7 [CacheOp.put 5 (Ptr.ext 1), CacheOp.get 7]
    (by intro d hl; simp [mapLookup] at hl)
    (by intro d hd; simp at hd)
    (by norm_num)
    rfl
    rfl
    (by intro w hw; simp at hw)
  exact ⟨h.1.2, h.2⟩

theorem new_pos_eq {K T : Type} [Inhabited T] (C c : Nat) (hC : 0 < C) (hc : 0 < c) :
    ReqCache.New K T (C : Int) (c : Int) [] =
      .ok ⟨⟨"", false⟩, (c : Int), (C : Int), [], ⟨(c : Int), []⟩, [],
        ⟨"", (C : Int), false, [], 0⟩, []⟩ := by
  have h1 : ¬ ((c : Int) ≤ 0) := by omega
  have h2 : ¬ ((C : Int) ≤ 0) := by omega
  unfold ReqCache.New ReqCache.validate
  simp [h1, h2, newPoolWrapper, newObjectSyncPool]

theorem c1_iter {K T : Type} [DecidableEq K] [Inhabited T] (C c sid : Nat) (hC : 0 < C) :
    ∀ n : Nat,
      iterNewObject
        (⟨⟨"", false⟩, (c : Int), (C : Int), [], ⟨(c : Int), []⟩, [],
          ⟨"", (C : Int), false, [], 0⟩, []⟩ : ReqCache K T)
        (.valid (some sid)) (n + 1) =
      ((List.range (n + 1)).map (fun i =>
          if i < C then Except.ok (Ptr.slot 0 i) else Except.ok (Ptr.fresh (i - C))),
       ⟨⟨"", false⟩, (c : Int), (C : Int), [], ⟨(c : Int), []⟩,
        [(sid, ⟨0, List.replicate C default, min (n + 1) C, "", false⟩)],
        ⟨"", (C : Int), false, [], 1⟩, List.replicate (n + 1 - C) default⟩) := by
  intro n
  induction n with
  | zero =>
    have hC0 : ¬ (C ≤ 0) := by omega
    have hmin : min 1 C = 1 := by omega
    have hsub : 1 - C = 0 := by omega
    simp [iterNewObject, ReqCache.NewObject, fromContext, mapLookup, mapInsert,
          objectSyncPool.Get, newObjectPool, objectPool.get, hC0, hC, hmin, hsub,
          List.range_succ]
  | succ n ih =>
    have hstep : iterNewObject
        (⟨⟨"", false⟩, (c : Int), (C : Int), [], ⟨(c : Int), []⟩, [],
          ⟨"", (C : Int), false, [], 0⟩, []⟩ : ReqCache K T)
        (.valid (some sid)) (n + 2) =
      ((iterNewObject
          (⟨⟨"", false⟩, (c : Int), (C : Int), [], ⟨(c : Int), []⟩, [],
            ⟨"", (C : Int), false, [], 0⟩, []⟩ : ReqCache K T)
          (.valid (some sid)) (n + 1)).1 ++
        [((iterNewObject
            (⟨⟨"", false⟩, (c : Int), (C : Int), [], ⟨(c : Int), []⟩, [],
              ⟨"", (C : Int), false, [], 0⟩, []⟩ : ReqCache K T)
            (.valid (some sid)) (n + 1)).2.NewObject (.valid (some sid))).1],
       ((iterNewObject
          (⟨⟨"", false⟩, (c : Int), (C : Int), [], ⟨(c : Int), []⟩, [],
            ⟨"", (C : Int), false, [], 0⟩, []⟩ : ReqCache K T)
          (.valid (some sid)) (n + 1)).2.NewObject (.valid (some sid))).2) := rfl
    rw [hstep, ih]
    by_cases hcase : n + 1 < C
    · have e1 : min (n + 1) C = n + 1 := by omega
      have e2 : min (n + 2) C = n + 2 := by omega
      have e3 : ¬ (C ≤ n + 1) := by omega
      have e4 : n + 1 - C = 0 := by omega
      have e5 : n + 2 - C = 0 := by omega
      simp [ReqCache.NewObject, fromContext, mapLookup, mapInsert, objectPool.get,
            e1, e2, e3, e4, e5, hcase, List.range_succ]
    · have e1 : min (n + 1) C = C := by omega
      have e2 : min (n + 2) C = C := by omega
      have e3 : C ≤ n + 1 := by omega
      have e4 : n + 2 - C = (n + 1 - C) + 1 := by omega
      simp [ReqCache.NewObject, fromContext, mapLookup, mapInsert, objectPool.get,
            e1, e2, e3, e4, hcase, List.range_succ, List.replicate_succ']

/-- Claim C1: on a fresh session of a freshly constructed manager with
arena capacity C greater than 0, each of the first C NewObject calls
returns the pointer to the slot at the current cursor (call i yields
slot i) and bumps the cursor (after q calls the cursor is min q C),
every later call still succeeds returning a standalone allocation, and
all pointers ever returned are pairwise distinct. -/
theorem arena_first_calls_then_fallback_distinct {K T : Type} [DecidableEq K]
    [Inhabited T] (C c sid : Nat) (m0 : ReqCache K T) (hC : 0 < C) (hc : 0 < c)
    (hnew : ReqCache.New K T (C : Int) (c : Int) [] = .ok m0) (n : Nat) :
    (iterNewObject m0 (.valid (some sid)) n).1 =
      (List.range n).map (fun i =>
        if i < C then Except.ok (Ptr.slot 0 i) else Except.ok (Ptr.fresh (i - C))) ∧
    ((iterNewObject m0 (.valid (some sid)) n).1).Nodup ∧
    (∀ i, i < n →
      mapLookup ((iterNewObject m0 (.valid (some sid)) (i + 1)).2).objects sid =
        some ⟨0, List.replicate C default, min (i + 1) C, "", false⟩) := by
  have hm0 : m0 = ⟨⟨"", false⟩, (c : Int), (C : Int), [], ⟨(c : Int), []⟩, [],
      ⟨"", (C : Int), false, [], 0⟩, []⟩ := by
    have h2 := new_pos_eq (K := K) (T := T) C c hC hc
    rw [hnew] at h2
    exact Except.ok.inj h2
  subst hm0
  have hlist : ∀ q : Nat,
      (iterNewObject
        (⟨⟨"", false⟩, (c : Int), (C : Int), [], ⟨(c : Int), []⟩, [],
          ⟨"", (C : Int), false, [], 0⟩, []⟩ : ReqCache K T)
        (.valid (some sid)) q).1 =
      (List.range q).map (fun i =>
        if i < C then Except.ok (Ptr.slot 0 i) else Except.ok (Ptr.fresh (i - C))) := by
    intro q
    cases q with
    | zero => rfl
    | succ q => exact congrArg Prod.fst (c1_iter C c sid hC q)
  have hinj : Function.Injective (fun i : Nat =>
      (if i < C then Except.ok (Ptr.slot 0 i) else Except.ok (Ptr.fresh (i - C)) :
        Except GoError Ptr)) := by
    intro a b hab
    by_cases ha : a < C <;> by_cases hb : b < C <;>
      simp [ha, hb] at hab <;> omega
  refine ⟨hlist n, ?_, ?_⟩
  · rw [hlist n]
    exact (List.nodup_range n).map hinj
  · intro i hi
    rw [c1_iter C c sid hC i]
    simp [mapLookup]

/-- Witness for claim C1: capacity 2, three NewObject calls in session 1
on a concrete fresh manager. -/
theorem arena_first_calls_then_fallback_distinct_witness :
    (iterNewObject (⟨⟨"", false⟩, 1, 2, [], ⟨1, []⟩, [], ⟨"", 2, false, [], 0⟩, []⟩ :
        ReqCache Nat Nat) (.valid (some 1)) 3).1 =
      (List.range 3).map (fun i =>
        if i < 2 then Except.ok (Ptr.slot 0 i) else Except.ok (Ptr.fresh (i - 2))) ∧
    ((iterNewObject (⟨⟨"", false⟩, 1, 2, [], ⟨1, []⟩, [], ⟨"", 2, false, [], 0⟩, []⟩ :
        ReqCache Nat Nat) (.valid (some 1)) 3).1).Nodup := by
  have h := arena_first_calls_then_fallback_distinct 2 1 1
    (⟨⟨"", false⟩, 1, 2, [], ⟨1, []⟩, [], ⟨"", 2, false, [], 0⟩, []⟩ : ReqCache Nat Nat)
    (by norm_num) (by norm_num) rfl 3
  exact ⟨h.1, h.2.1⟩

theorem syncGet_reset {T : Type} [Inhabited T] (w : objectSyncPool T) :
    ((objectSyncPool.Get w).1).index = 0 ∧
    ∃ n, ((objectSyncPool.Get w).1).data = List.replicate n default := by
  unfold objectSyncPool.Get
  cases w.free with
  | nil => exact ⟨rfl, _, rfl⟩
  | cons o rest => exact ⟨rfl, _, rfl⟩

theorem alloc_reads_default {T : Type} [Inhabited T] :
    ∀ (ops : List (AOp T)) (s : AllocState T) (issued : List Ptr),
      s.pool.index ≤ s.pool.data.length →
      (∀ i, s.pool.index ≤ i → i < s.pool.data.length →
        s.pool.data[i]? = some default) →
      (∀ a i, Ptr.slot a i ∈ issued → a = s.pool.arenaId ∧ i < s.pool.index) →
      (∀ j, Ptr.fresh j ∈ issued → j < s.freshVals.length) →
      validRun s issued ops = true →
      ∀ r ∈ takeReads s ops, r = some (default : T) := by
  intro ops
  induction ops with
  | nil =>
    intro s issued _ _ _ _ _ r hr
    simp [takeReads] at hr
  | cons op ops ih =>
    intro s issued hle hzero hslot hfresh hvalid r hr
    match op with
    | .take =>
      simp only [takeReads] at hr
      simp only [validRun] at hvalid
      by_cases hfull : s.pool.data.length ≤ s.pool.index
      · rw [objectPool.get, if_pos hfull] at hr hvalid
        simp only [] at hr hvalid
        rcases List.mem_cons.mp hr with rfl | hr2
        · show readPtr _ (Ptr.fresh s.freshVals.length) = _
          simp only [readPtr]
          exact List.getElem?_concat_length _ _
        · refine ih (⟨s.pool, s.freshVals ++ [default]⟩ : AllocState T)
            (Ptr.fresh s.freshVals.length :: issued) hle hzero ?_ ?_ hvalid r hr2
          · intro a i hmem
            rcases List.mem_cons.mp hmem with heq | hmem2
            · exact absurd heq (by simp)
            · exact hslot a i hmem2
          · intro j hmem
            rcases List.mem_cons.mp hmem with heq | hmem2
            · have hj : j = s.freshVals.length := by
                injection heq
              subst hj
              simp
            · have := hfresh j hmem2
              simp only [List.length_append, List.length_cons, List.length_nil]
              omega
      · rw [objectPool.get, if_neg hfull] at hr hvalid
        simp only [] at hr hvalid
        rcases List.mem_cons.mp hr with rfl | hr2
        · show readPtr _ (Ptr.slot s.pool.arenaId s.pool.index) = _
          show (if s.pool.arenaId =
              ({ s.pool with index := s.pool.index + 1 } : objectPool T).arenaId then
            ({ s.pool with index := s.pool.index + 1 } : objectPool T).data[s.pool.index]?
            else none) = _
          rw [if_pos rfl]
          exact hzero s.pool.index (Nat.le_refl _) (by omega)
        · refine ih (⟨{ s.pool with index := s.pool.index + 1 }, s.freshVals⟩ :
              AllocState T)
            (Ptr.slot s.pool.arenaId s.pool.index :: issued) ?_ ?_ ?_ ?_ hvalid r hr2
          · show s.pool.index + 1 ≤ s.pool.data.length
            omega
          · intro i h1 h2
            replace h1 : s.pool.index + 1 ≤ i := h1
            replace h2 : i < s.pool.data.length := h2
            exact hzero i (by omega) h2
          · intro a i hmem
            rcases List.mem_cons.mp hmem with heq | hmem2
            · have ha : a = s.pool.arenaId ∧ i = s.pool.index := by
                injection heq with h1 h2
                exact ⟨h1, h2⟩
              refine ⟨ha.1, ?_⟩
              show i < s.pool.index + 1
              omega
            · have := hslot a i hmem2
              refine ⟨this.1, ?_⟩
              show i < s.pool.index + 1
              omega
          · intro j hmem
            rcases List.mem_cons.mp hmem with heq | hmem2
            · exact absurd heq (by simp)
            · exact hfresh j hmem2
    | .write q v =>
      simp only [takeReads] at hr
      simp only [validRun, Bool.and_eq_true] at hvalid
      obtain ⟨hq, hvalid2⟩ := hvalid
      have hqmem : q ∈ issued := of_decide_eq_true hq
      match q with
      | .null =>
        exact ih (writePtr s .null v) issued hle hzero hslot hfresh hvalid2 r hr
      | .ext j =>
        exact ih (writePtr s (.ext j) v) issued hle hzero hslot hfresh hvalid2 r hr
      | .fresh j =>
        refine ih (writePtr s (.fresh j) v) issued hle hzero hslot ?_ hvalid2 r hr
        intro j2 hmem
        have := hfresh j2 hmem
        show j2 < (s.freshVals.set j v).length
        rw [List.length_set]
        exact this
      | .slot a i =>
        obtain ⟨ha, hi⟩ := hslot a i hqmem
        subst ha
        have hw : writePtr s (.slot s.pool.arenaId i) v =
            (⟨{ s.pool with data := s.pool.data.set i v }, s.freshVals⟩ :
              AllocState T) := by
          simp [writePtr]
        rw [hw] at hvalid2 hr
        refine ih (⟨{ s.pool with data := s.pool.data.set i v }, s.freshVals⟩ :
            AllocState T) issued ?_ ?_ ?_ ?_ hvalid2 r hr
        · show s.pool.index ≤ (s.pool.data.set i v).length
          rw [List.length_set]
          exact hle
        · intro i2 h1 h2
          replace h1 : s.pool.index ≤ i2 := h1
          replace h2 : i2 < (s.pool.data.set i v).length := h2
          rw [List.length_set] at h2
          show (s.pool.data.set i v)[i2]? = some default
          rw [List.getElem?_set_ne (by omega)]
          exact hzero i2 h1 h2
        · exact hslot
        · exact hfresh

/-- Claim C10: starting from an arena freshly acquired from the
recycling pool (cursor reset, slots zeroed) and an empty standalone
heap, along any trace of take and write steps in which every write goes
through a previously returned pointer, every pointer returned by a take
refers to the zero value of T at the moment it is returned — both for
arena slots and for fallback allocations.  ReqCache.NewObject delegates
exactly to objectPool.get on such an arena. -/
theorem new_object_returns_zero_value {T : Type} [Inhabited T]
    (w : objectSyncPool T) (ops : List (AOp T))
    (hvalid : validRun ⟨(objectSyncPool.Get w).1, []⟩ [] ops = true) :
    ∀ r ∈ takeReads ⟨(objectSyncPool.Get w).1, []⟩ ops, r = some (default : T) := by
  obtain ⟨hidx, n, hdata⟩ := syncGet_reset w
  refine alloc_reads_default ops _ [] ?_ ?_ ?_ ?_ hvalid
  · show ((objectSyncPool.Get w).1).index ≤ ((objectSyncPool.Get w).1).data.length
    rw [hidx]
    exact Nat.zero_le _
  · intro i h1 h2
    show ((objectSyncPool.Get w).1).data[i]? = some default
    replace h2 : i < ((objectSyncPool.Get w).1).data.length := h2
    rw [hdata] at h2 ⊢
    rw [List.length_replicate] at h2
    exact List.getElem?_replicate_of_lt h2
  · intro a i hmem
    exact absurd hmem (List.not_mem_nil _)
  · intro j hmem
    exact absurd hmem (List.not_mem_nil _)

/-- Witness for claim C10: capacity 1, a take, a write through the
returned slot pointer, then two more takes (one fallback allocation). -/
theorem new_object_returns_zero_value_witness :
    validRun (⟨(objectSyncPool.Get (⟨"n", 1, false, [], 0⟩ : objectSyncPool Nat)).1, []⟩ :
        AllocState Nat) []
      [AOp.take, AOp.write (Ptr.slot 0 0) 5, AOp.take, AOp.take] = true ∧
    ∀ r ∈ takeReads
        (⟨(objectSyncPool.Get (⟨"n", 1, false, [], 0⟩ : objectSyncPool Nat)).1, []⟩ :
          AllocState Nat)
        [AOp.take, AOp.write (Ptr.slot 0 0) 5, AOp.take, AOp.take],
      r = some 0 :=
  ⟨by decide,
   new_object_returns_zero_value (⟨"n", 1, false, [], 0⟩ : objectSyncPool Nat)
     [AOp.take, AOp.write (Ptr.slot 0 0) 5, AOp.take, AOp.take] (by decide)⟩

end Reqcache
